import Mathlib

/-!
# MasumiRanker backend core: verification of the specified behavior

This file embeds the core subsystems of the MasumiRanker platform
(semantic-search loading and querying, the rating ledger, the
recommendation event log, and the review-deduplication logic of the
frontend detail page) as executable Lean definitions, and proves or
refutes the specified properties about them.

The startup loader `load_search_models` is embedded from the compiled
`backend/__pycache__/main.cpython-310.pyc` (the only backend file present
in the repository), whose bytecode was decoded by hand.  The route
handlers (`POST /api/ratings`, `POST /api/search`, the recommendation
endpoints) are not present in the repository; those are modelled from the
specification, as marked in their doc comments.  The review filter
`uniqueReviews` is embedded from `frontend/src/pages/detail.jsx`.

Machine floats are modelled by `ℚ`, timestamps by strings, and fallible
I/O steps by `Except`; a Python exception raised and caught corresponds
to the `Except.error` branch of the corresponding match.
-/

namespace MasumiRanker

/-- Denormalized snapshot record persisted in `agents.json` by the index
builder: agent identity plus the display fields needed to render a search
result without a second corpus lookup (spec section 6, artifact 1). -/
structure AgentMeta where
  agent_id : String
  did : String
  name : String
  description : String
deriving Repr, DecidableEq

/-- Result of deserializing the snapshot file `agents.json`: either a JSON
array of records, or some other well-formed JSON value.  The loader only
distinguishes these two shapes, via `isinstance(..., list)`. -/
inductive SnapshotJson where
  | arr (items : List AgentMeta)
  | notList
deriving Repr, DecidableEq

/-- The loaded Faiss index.  To the rest of the system it is opaque beyond
its vector count `ntotal` and nearest-neighbor queries (spec section 6,
artifact 3). -/
structure FaissIndex where
  ntotal : Nat
deriving Repr, DecidableEq

/-- Log lines emitted by `load_search_models` in `backend/main.py`, in
order of emission.  The mismatch warning carries the two counts it
interpolates into the message text. -/
inductive LogEvent where
  | infoAttempting
  | errorFilesNotFound
  | infoLoadingAgents
  | infoLoadingIndex
  | infoLoadingModel
  | warnMismatch (indexVectors agentsLoaded : Nat)
  | infoSearchEnabled
  | infoIndexContains (n : Nat)
  | errorLoadFailed
deriving Repr, DecidableEq

/-- Environment of one startup load: which paths exist on disk, and what
each fallible loading step would return.  `vectorsFileExists` is the raw
vector-array artifact (`embeddings.npy`) of spec section 6; the decoded
loader never consults it, which the model makes visible.  `Except.error
()` models the corresponding Python call raising an exception (malformed
JSON, unreadable index file, missing embedding model). -/
structure LoadEnv where
  modelDirExists : Bool
  agentsFileExists : Bool
  indexFileExists : Bool
  vectorsFileExists : Bool
  readAgentsJson : Except Unit SnapshotJson
  readIndex : Except Unit FaissIndex
  loadTransformer : Except Unit Unit
deriving Repr

/-- The fields of the FastAPI `app.state` object touched by the loader and
read by the search route. -/
structure AppState where
  search_enabled : Bool
  search_agents_list : Option SnapshotJson
  faiss_index : Option FaissIndex
  sentence_model : Bool
deriving Repr, DecidableEq

/-- Embedding of `load_search_models` from `backend/main.py` (decoded from
`__pycache__/main.cpython-310.pyc`).  The decoded control flow is:

1. reset `app.state` (`search_enabled = False`, the three resources `None`);
2. if the model directory or either artifact file is missing, log an error
   and return early;
3. inside `try`: `json.load` the snapshot into
   `app.state.search_agents_list`, `faiss.read_index` into
   `app.state.faiss_index`, construct the sentence-transformer model;
   raise `ValueError` if the snapshot is not a list;
4. if `index.ntotal != len(agents)` log the mismatch warning — and then
   fall through: `app.state.search_enabled = True` is executed on this
   path as well;
5. `except Exception`: log the failure and set `search_enabled = False`.

The string `embeddings.npy` does not occur in the module: the raw
vector-array artifact is never checked or read, so `vectorsFileExists`
is ignored.  The returned pair is the final `app.state` and the emitted
log lines. -/
def load_search_models (env : LoadEnv) : AppState × List LogEvent :=
  let s0 : AppState := ⟨false, none, none, false⟩
  let log0 : List LogEvent := [.infoAttempting]
  if ¬(env.modelDirExists ∧ env.agentsFileExists ∧ env.indexFileExists) then
    (s0, log0 ++ [.errorFilesNotFound])
  else
    let log1 := log0 ++ [.infoLoadingAgents]
    match env.readAgentsJson with
    | .error _ => ({ s0 with search_enabled := false }, log1 ++ [.errorLoadFailed])
    | .ok snap =>
      let s1 : AppState := { s0 with search_agents_list := some snap }
      let log2 := log1 ++ [.infoLoadingIndex]
      match env.readIndex with
      | .error _ => ({ s1 with search_enabled := false }, log2 ++ [.errorLoadFailed])
      | .ok idx =>
        let s2 : AppState := { s1 with faiss_index := some idx }
        let log3 := log2 ++ [.infoLoadingModel]
        match env.loadTransformer with
        | .error _ => ({ s2 with search_enabled := false }, log3 ++ [.errorLoadFailed])
        | .ok _ =>
          let s3 : AppState := { s2 with sentence_model := true }
          match snap with
          | .notList => ({ s3 with search_enabled := false }, log3 ++ [.errorLoadFailed])
          | .arr items =>
            let log4 := if idx.ntotal ≠ items.length then
                          log3 ++ [.warnMismatch idx.ntotal items.length]
                        else log3
            ({ s3 with search_enabled := true },
             log4 ++ [.infoSearchEnabled, .infoIndexContains idx.ntotal])

/-- Characterization of when the loader ends with `search_enabled = true`:
exactly when all three path checks pass, the snapshot deserializes into a
list, and the index and the embedding model load without raising.  Count
equality between `ntotal` and the snapshot length does not appear: the
decoded bytecode only logs a warning on mismatch. -/
lemma load_search_models_enabled_iff (env : LoadEnv) :
    (load_search_models env).1.search_enabled = true ↔
      env.modelDirExists = true ∧ env.agentsFileExists = true ∧
      env.indexFileExists = true ∧
      (∃ items, env.readAgentsJson = .ok (.arr items)) ∧
      (∃ idx, env.readIndex = .ok idx) ∧
      env.loadTransformer = .ok () := by
  obtain ⟨d, af, ixf, vf, rj, ri, lt⟩ := env
  cases d <;> cases af <;> cases ixf <;>
    rcases rj with e₁ | (items | _) <;> rcases ri with e₂ | idx <;>
    rcases lt with e₃ | u <;>
    simp [load_search_models]

/-- The loader never leaves `search_enabled = true` without also holding
the parsed snapshot and the loaded index in `app.state`. -/
lemma load_search_models_enabled_state (env : LoadEnv)
    (h : (load_search_models env).1.search_enabled = true) :
    (∃ items, (load_search_models env).1.search_agents_list =
        some (.arr items) ∧ env.readAgentsJson = .ok (.arr items)) ∧
    (∃ idx, (load_search_models env).1.faiss_index = some idx ∧
        env.readIndex = .ok idx) := by
  obtain ⟨d, af, ixf, vf, rj, ri, lt⟩ := env
  cases d <;> cases af <;> cases ixf <;>
    rcases rj with e₁ | (items | _) <;> rcases ri with e₂ | idx <;>
    rcases lt with e₃ | u <;>
    simp_all [load_search_models]

/-- A search result row: the denormalized agent display fields together
with the similarity score of the matched vector (spec section 6,
`search` output). -/
structure SearchResult where
  agent : AgentMeta
  similarity_score : ℚ
deriving Repr, DecidableEq

/-- Outcome of a `POST /api/search` call: the explicit unavailable
response when the subsystem is disabled, a validation rejection for an
empty query, or the ranked result rows. -/
inductive SearchOutcome where
  | unavailable
  | invalidQuery
  | results (rows : List SearchResult)
deriving Repr, DecidableEq

/-- Ranking relation on scored positions: earlier entries have scores at
least as large. -/
def scoreGe (a b : Nat × ℚ) : Prop := b.2 ≤ a.2

instance : DecidableRel scoreGe := fun a b => inferInstanceAs (Decidable (b.2 ≤ a.2))

instance : IsTotal (Nat × ℚ) scoreGe := ⟨fun a b => le_total b.2 a.2⟩

instance : IsTrans (Nat × ℚ) scoreGe := ⟨fun _ _ _ hab hbc => le_trans hbc hab⟩

/-- Modelled from the spec: the `POST /api/search` route handler is code of
this repository that is not present under `src/` (only the compiled
`main.py` and the frontend survive).  Modelled from spec section 4.3
(Query Engine): require `search_enabled`, otherwise return the explicit
unavailable outcome without touching the index; reject an empty query;
clamp `top_k` to the vector count; score every vector position against
the query, rank by descending similarity with ties broken by snapshot
order (stable sort), and map positions back to snapshot entries.
`embed` abstracts embedding the query and taking the inner product with
the normalized vector at a given position. -/
def searchHandler (embed : String → Nat → ℚ) (st : AppState)
    (query : String) (top_k : Nat) : SearchOutcome :=
  if st.search_enabled = false then .unavailable
  else if query = "" then .invalidQuery
  else
    match st.search_agents_list, st.faiss_index with
    | some (.arr items), some idx =>
      let k := min top_k idx.ntotal
      let scored := (List.range idx.ntotal).map (fun i => (i, embed query i))
      let ranked := scored.insertionSort scoreGe
      .results ((ranked.take k).map
        (fun p => ⟨items.getD p.1 ⟨"", "", "", ""⟩, p.2⟩))
    | _, _ => .unavailable

/-- Agent record from the corpus store, restricted to the fields the
rating ledger touches: identity plus the derived aggregate fields
(spec section 3).  The float `avg_score` is modelled by `ℚ`. -/
structure Agent where
  agent_id : String
  did : String
  name : String
  avg_score : ℚ
  num_ratings : Nat
deriving Repr, DecidableEq

/-- A stored Rating (spec section 3): append-only ledger entry.  `score`
is kept as an integer, `comment` is optional, `timestamp` is the opaque
UTC instant generated at ingestion, `hash` the audit digest. -/
structure Rating where
  agent_reference : String
  user_reference : String
  score : Int
  comment : Option String
  timestamp : String
  hash : String
deriving Repr, DecidableEq

/-- Core state the Rating Ledger reads and writes: the agent records with
their aggregates, and the append-only list of ratings. -/
structure LedgerState where
  agents : List Agent
  ratings : List Rating
deriving Repr, DecidableEq

/-- Rejection outcomes of `submit_rating` (spec sections 4.4 and 7). -/
inductive SubmitError where
  | invalidInput
  | notFound
  | storageFailure
deriving Repr, DecidableEq

/-- One `POST /api/ratings` request body. -/
structure RatingRequest where
  agent_id : String
  user_id : String
  score : Int
  comment : Option String
deriving Repr, DecidableEq

/-- The ratings stored for one agent, in ledger order. -/
def ratingsFor (rs : List Rating) (aid : String) : List Rating :=
  rs.filter (fun rr => decide (rr.agent_reference = aid))

/-- Arithmetic mean over `ℚ` of the scores of a list of ratings; the mean
of an empty list is `0` (matching a fresh agent aggregate). -/
def meanScore (rs : List Rating) : ℚ :=
  ((rs.map (fun rr => (rr.score : ℚ))).sum) / (rs.length : ℚ)

/-- Whether a submitted comment exceeds the bounded length. -/
def commentOversized (maxLen : Nat) : Option String → Bool
  | none => false
  | some c => decide (maxLen < c.length)

/-- Modelled from the spec: the `POST /api/ratings` route handler and the
SQLAlchemy models behind it are code of this repository that is not
present under `src/`.  Modelled from spec section 4.4 (Rating Ledger):
validate score in `[1,5]` and the comment bound, resolve the agent,
generate the timestamp `now` at ingestion, compute `hash` as `digest`
over the ordered tuple `(agent_reference, user_reference, score,
comment_or_empty, timestamp)`, then — as one logical transaction — append
the Rating and recompute the referenced agent aggregate directly from the
full rating set for that agent.  `storageOk = false` models a storage
failure of that transaction, which then commits nothing.  `digest`
abstracts the collision-resistant hash (SHA-256 in the README contract),
`maxLen` the comment bound. -/
def submit_rating (digest : String → String → Int → String → String → String)
    (maxLen : Nat) (now : String) (storageOk : Bool)
    (st : LedgerState) (req : RatingRequest) :
    Except SubmitError (LedgerState × Rating) :=
  if ¬(1 ≤ req.score ∧ req.score ≤ 5) then .error .invalidInput
  else if commentOversized maxLen req.comment then .error .invalidInput
  else if ¬(∃ a ∈ st.agents, a.agent_id = req.agent_id) then .error .notFound
  else if storageOk = false then .error .storageFailure
  else
    let r : Rating :=
      ⟨req.agent_id, req.user_id, req.score, req.comment, now,
       digest req.agent_id req.user_id req.score (req.comment.getD "") now⟩
    let newRatings := st.ratings ++ [r]
    let newAgents := st.agents.map (fun a =>
      if a.agent_id = req.agent_id then
        { a with num_ratings := (ratingsFor newRatings a.agent_id).length,
                 avg_score := meanScore (ratingsFor newRatings a.agent_id) }
      else a)
    .ok (⟨newAgents, newRatings⟩, r)

/-- One ingestion attempt: the request, the generated UTC timestamp, and
whether the storage transaction would commit. -/
structure SubmitOp where
  req : RatingRequest
  now : String
  storageOk : Bool
deriving Repr, DecidableEq

/-- The observable ledger state after one ingestion attempt: the committed
state on success, the unchanged state on any rejection or failure. -/
def applyOp (digest : String → String → Int → String → String → String)
    (maxLen : Nat) (st : LedgerState) (op : SubmitOp) : LedgerState :=
  match submit_rating digest maxLen op.now op.storageOk st op.req with
  | .ok (st2, _) => st2
  | .error _ => st

/-- The ledger state after a sequence of ingestion attempts.  Concurrent
submissions are serialized by the transaction contract of spec section
4.4, so an interleaving is modelled by the sequence of its commits. -/
def applyOps (digest : String → String → Int → String → String → String)
    (maxLen : Nat) (st : LedgerState) (ops : List SubmitOp) : LedgerState :=
  ops.foldl (applyOp digest maxLen) st

/-- Aggregate invariant of spec section 3: every agent's `num_ratings` is
the number of its stored ratings and `avg_score` is their mean score. -/
def AggInvariant (st : LedgerState) : Prop :=
  ∀ a ∈ st.agents,
    a.num_ratings = (ratingsFor st.ratings a.agent_id).length ∧
    a.avg_score = meanScore (ratingsFor st.ratings a.agent_id)

instance (st : LedgerState) : Decidable (AggInvariant st) :=
  inferInstanceAs (Decidable (∀ a ∈ st.agents, _ ∧ _))

/-- Hash invariant of spec section 8: every stored rating's `hash` equals
the digest of its stored fields in the canonical order. -/
def HashInvariant (digest : String → String → Int → String → String → String)
    (st : LedgerState) : Prop :=
  ∀ r ∈ st.ratings,
    r.hash = digest r.agent_reference r.user_reference r.score
      (r.comment.getD "") r.timestamp

instance (digest : String → String → Int → String → String → String)
    (st : LedgerState) : Decidable (HashInvariant digest st) :=
  inferInstanceAs (Decidable (∀ r ∈ st.ratings, _))

/-- Modelled from the spec: the recommendation endpoints and the
`recommend.db` models are code of this repository that is not present
under `src/`.  Modelled from spec section 4.5: `log(did)` verifies the
DID resolves to a known agent and then appends `(did, timestamp)` to the
event log; an unknown DID is rejected and nothing is appended.  The
returned flag is `true` exactly on success (`ok` versus
`not_found_error`). -/
def log_recommendation (knownDids : List String)
    (events : List (String × String)) (did ts : String) :
    List (String × String) × Bool :=
  if did ∈ knownDids then (events ++ [(did, ts)], true) else (events, false)

/-- Modelled from the spec: `list()` returns the set of distinct DIDs ever
logged (spec section 4.5), projected from the append-only event log with
first occurrences kept. -/
def list_recommendations (events : List (String × String)) : List String :=
  (events.map Prod.fst).dedup

/-- Event-log state after a sequence of `log_recommendation` calls, each
given as a `(did, timestamp)` attempt. -/
def applyRecOps (knownDids : List String)
    (events : List (String × String)) (ops : List (String × String)) :
    List (String × String) :=
  ops.foldl (fun s op => (log_recommendation knownDids s op.1 op.2).1) events

/-- One review row as returned by `GET /api/ratings/by-did` and rendered
by the frontend detail page; `hash` is `Option` so a missing field can be
represented (`none` and the empty string are the falsy cases for a string
field). -/
structure Review where
  score : Int
  comment : Option String
  timestamp : String
  hash : Option String
deriving Repr, DecidableEq

/-- Truthiness of the `review.hash` field as JavaScript evaluates it: a
missing value and the empty string are falsy. -/
def hashTruthy : Option String → Bool
  | none => false
  | some h => decide (h ≠ "")

/-- Embedding of the filter inside `uniqueReviews` of
`frontend/src/pages/detail.jsx` lines 118 to 128: walk the fetched list,
keep a review only when its `hash` is truthy and not in the `seenHashes`
set, adding kept hashes to the set. -/
def uniqueReviewsGo (seen : List String) : List Review → List Review
  | [] => []
  | r :: rs =>
    match r.hash with
    | some h =>
      if h ≠ "" ∧ h ∉ seen then r :: uniqueReviewsGo (h :: seen) rs
      else uniqueReviewsGo seen rs
    | none => uniqueReviewsGo seen rs

/-- Embedding of `uniqueReviews` of `frontend/src/pages/detail.jsx`:
the filter run with an initially empty `seenHashes` set. -/
def uniqueReviews (l : List Review) : List Review := uniqueReviewsGo [] l

/-- Specification formulation of the same filter, written from the words
of the claim: keep exactly those reviews whose hash is truthy and whose
hash value did not occur on any earlier review (first occurrence in list
order); `p` accumulates the part of the list already walked. -/
def firstOccAux (p : List Review) : List Review → List Review
  | [] => []
  | r :: rs =>
    if hashTruthy r.hash = true ∧ ∀ x ∈ p, x.hash ≠ r.hash then
      r :: firstOccAux (p ++ [r]) rs
    else firstOccAux (p ++ [r]) rs

/-- Specification formulation of `uniqueReviews`, starting from the empty
already-walked part. -/
def firstOccurrences (l : List Review) : List Review := firstOccAux [] l

/-- C3: the claim states that on a vector-count mismatch the loader sets
`search_enabled` to false.  Evaluating the embedded loader at the failing
input (index with 2 vectors, snapshot listing 3 agents) shows the code
logs the warning identifying both counts but then still sets
`search_enabled` to true — the decoded bytecode falls through from the
warning to the enabling assignment. -/
theorem load_mismatch_still_enables_search :
    (load_search_models
      ⟨true, true, true, true,
       .ok (.arr [⟨"agent001", "did:1", "Agent One", "a"⟩,
                  ⟨"agent002", "did:2", "Agent Two", "b"⟩,
                  ⟨"agent003", "did:3", "Agent Three", "c"⟩]),
       .ok ⟨2⟩, .ok ()⟩).1.search_enabled = true ∧
    LogEvent.warnMismatch 2 3 ∈
      (load_search_models
        ⟨true, true, true, true,
         .ok (.arr [⟨"agent001", "did:1", "Agent One", "a"⟩,
                    ⟨"agent002", "did:2", "Agent Two", "b"⟩,
                    ⟨"agent003", "did:3", "Agent Three", "c"⟩]),
         .ok ⟨2⟩, .ok ()⟩).2 := by
  decide

/-- C4 counterexample: the claim quantifies over a missing instance of any
of the three persisted artifacts of spec section 6, which include the raw
vector array (`embeddings.npy`) — but the decoded loader never checks or
reads that file.  At this concrete startup state, where only the raw
vector array is missing and everything the code does consult is intact,
the load ends with `search_enabled = true`, not false. -/
theorem missing_vector_array_leaves_search_enabled :
    (load_search_models
      ⟨true, true, true, false,
       .ok (.arr [⟨"e1", "did:e1", "E One", "s"⟩]), .ok ⟨1⟩,
       .ok ()⟩).1.search_enabled = true ∧
    (⟨true, true, true, false,
      .ok (.arr [⟨"e1", "did:e1", "E One", "s"⟩]), .ok ⟨1⟩,
      .ok ()⟩ : LoadEnv).vectorsFileExists = false := by
  decide

/-- C4 as amended: for every startup environment in which the model
directory, the snapshot file (`agents.json`) or the serialized index file
(`index.faiss`) is missing, or the snapshot file raises on
deserialization or deserializes to a non-list, or the embedding model
fails to construct, the loader ends with `search_enabled = false` — the
raw vector-array artifact is never consulted, so its absence alone does
not disable search.  No exception propagates: `load_search_models` is a
total function whose `except` branch absorbs every raised step. -/
theorem load_failure_disables_search (env : LoadEnv)
    (h : env.modelDirExists = false ∨ env.agentsFileExists = false ∨
         env.indexFileExists = false ∨ env.readAgentsJson = .error () ∨
         env.readAgentsJson = .ok .notList ∨
         env.loadTransformer = .error ()) :
    (load_search_models env).1.search_enabled = false := by
  rw [← Bool.not_eq_true, load_search_models_enabled_iff]
  rintro ⟨hd, ha, hi, ⟨items, hj⟩, ⟨idx, hx⟩, hlt⟩
  rcases h with h | h | h | h | h | h <;> simp_all

/-- Witness for C4 at a concrete environment with a missing model
directory and a non-list snapshot. -/
theorem load_failure_disables_search_witness :
    (load_search_models
      ⟨false, true, true, true, .ok .notList, .ok ⟨0⟩, .ok ()⟩).1.search_enabled
      = false :=
  load_failure_disables_search _ (Or.inl rfl)

/-- C9 counterexample: the claim states that whenever `search_enabled` is
true the held index and snapshot have equal counts.  At this concrete
load (index with 5 vectors, snapshot listing 3 agents) the loader ends
enabled while holding mismatched resources. -/
theorem search_enabled_with_mismatched_counts :
    (load_search_models
      ⟨true, true, true, true,
       .ok (.arr [⟨"b1", "did:b1", "B One", "p"⟩,
                  ⟨"b2", "did:b2", "B Two", "q"⟩,
                  ⟨"b3", "did:b3", "B Three", "r"⟩]),
       .ok ⟨5⟩, .ok ()⟩).1.search_enabled = true ∧
    (load_search_models
      ⟨true, true, true, true,
       .ok (.arr [⟨"b1", "did:b1", "B One", "p"⟩,
                  ⟨"b2", "did:b2", "B Two", "q"⟩,
                  ⟨"b3", "did:b3", "B Three", "r"⟩]),
       .ok ⟨5⟩, .ok ()⟩).1.faiss_index = some ⟨5⟩ ∧
    (load_search_models
      ⟨true, true, true, true,
       .ok (.arr [⟨"b1", "did:b1", "B One", "p"⟩,
                  ⟨"b2", "did:b2", "B Two", "q"⟩,
                  ⟨"b3", "did:b3", "B Three", "r"⟩]),
       .ok ⟨5⟩, .ok ()⟩).1.search_agents_list
      = some (.arr [⟨"b1", "did:b1", "B One", "p"⟩,
                    ⟨"b2", "did:b2", "B Two", "q"⟩,
                    ⟨"b3", "did:b3", "B Three", "r"⟩]) ∧
    (FaissIndex.mk 5).ntotal ≠
      ([⟨"b1", "did:b1", "B One", "p"⟩,
        ⟨"b2", "did:b2", "B Two", "q"⟩,
        ⟨"b3", "did:b3", "B Three", "r"⟩] : List AgentMeta).length := by
  decide

/-- C9 as amended: `search_enabled` ends true only if, in that one load,
all three path checks passed, the snapshot deserialized into a list, and
the index and the embedding model loaded without raising; the parsed
snapshot and the loaded index are then the ones held in `app.state`.
Equality of the two counts is not part of the invariant: a mismatch only
logs a warning. -/
theorem search_enabled_only_if_loaded (env : LoadEnv)
    (h : (load_search_models env).1.search_enabled = true) :
    env.modelDirExists = true ∧ env.agentsFileExists = true ∧
    env.indexFileExists = true ∧
    (∃ items, env.readAgentsJson = .ok (.arr items) ∧
      (load_search_models env).1.search_agents_list = some (.arr items)) ∧
    (∃ idx, env.readIndex = .ok idx ∧
      (load_search_models env).1.faiss_index = some idx) ∧
    env.loadTransformer = .ok () := by
  have h1 := (load_search_models_enabled_iff env).mp h
  have h2 := load_search_models_enabled_state env h
  refine ⟨h1.1, h1.2.1, h1.2.2.1, ?_, ?_, h1.2.2.2.2.2⟩
  · obtain ⟨items, hs, hj⟩ := h2.1
    exact ⟨items, hj, hs⟩
  · obtain ⟨idx, hs, hx⟩ := h2.2
    exact ⟨idx, hx, hs⟩

/-- Witness for the amended C9 at a concrete successful load. -/
theorem search_enabled_only_if_loaded_witness :
    (⟨true, true, true, true, .ok (.arr []), .ok ⟨0⟩, .ok ()⟩ :
        LoadEnv).modelDirExists = true ∧
    (⟨true, true, true, true, .ok (.arr []), .ok ⟨0⟩, .ok ()⟩ :
        LoadEnv).agentsFileExists = true ∧
    (⟨true, true, true, true, .ok (.arr []), .ok ⟨0⟩, .ok ()⟩ :
        LoadEnv).indexFileExists = true ∧
    (∃ items, (⟨true, true, true, true, .ok (.arr []), .ok ⟨0⟩, .ok ()⟩ :
        LoadEnv).readAgentsJson = .ok (.arr items) ∧
      (load_search_models
        ⟨true, true, true, true, .ok (.arr []), .ok ⟨0⟩,
         .ok ()⟩).1.search_agents_list = some (.arr items)) ∧
    (∃ idx, (⟨true, true, true, true, .ok (.arr []), .ok ⟨0⟩, .ok ()⟩ :
        LoadEnv).readIndex = .ok idx ∧
      (load_search_models
        ⟨true, true, true, true, .ok (.arr []), .ok ⟨0⟩,
         .ok ()⟩).1.faiss_index = some idx) ∧
    (⟨true, true, true, true, .ok (.arr []), .ok ⟨0⟩, .ok ()⟩ :
        LoadEnv).loadTransformer = .ok () :=
  search_enabled_only_if_loaded
    ⟨true, true, true, true, .ok (.arr []), .ok ⟨0⟩, .ok ()⟩ (by decide)

/-- C5: whenever `search_enabled` is false, every search call returns the
explicit unavailable outcome.  The handler tests the flag before touching
the index or model, so no similarity search is attempted and, the
handler being a total function, nothing is thrown. -/
theorem search_disabled_returns_unavailable (embed : String → Nat → ℚ)
    (st : AppState) (q : String) (k : Nat)
    (h : st.search_enabled = false) :
    searchHandler embed st q k = .unavailable := by
  simp [searchHandler, h]

/-- Witness for C5 at the state a failed load leaves behind. -/
theorem search_disabled_returns_unavailable_witness :
    searchHandler (fun _ _ => 0) ⟨false, none, none, false⟩ "anything" 2
      = .unavailable :=
  search_disabled_returns_unavailable (fun _ _ => 0)
    ⟨false, none, none, false⟩ "anything" 2 rfl

/-- C6: for every non-empty query and positive `top_k` against an enabled
search state, the handler returns a result list of length at most `top_k`
(internally clamped to the vector count) sorted by non-increasing
`similarity_score`. -/
theorem search_topk_sorted (embed : String → Nat → ℚ) (st : AppState)
    (q : String) (k : Nat) (items : List AgentMeta) (idx : FaissIndex)
    (he : st.search_enabled = true) (hq : q ≠ "")
    (hs : st.search_agents_list = some (.arr items))
    (hi : st.faiss_index = some idx) (_hk : 0 < k) :
    ∃ rows, searchHandler embed st q k = .results rows ∧
      rows.length ≤ k ∧
      rows.Pairwise (fun a b => b.similarity_score ≤ a.similarity_score) := by
  have hred : searchHandler embed st q k =
      .results ((((((List.range idx.ntotal).map
          (fun i => (i, embed q i))).insertionSort scoreGe)).take
            (min k idx.ntotal)).map
        (fun p => ⟨items.getD p.1 ⟨"", "", "", ""⟩, p.2⟩)) := by
    unfold searchHandler
    rw [hs, hi]
    simp [he, hq]
  refine ⟨_, hred, ?_, ?_⟩
  · calc ((((((List.range idx.ntotal).map
          (fun i => (i, embed q i))).insertionSort scoreGe)).take
            (min k idx.ntotal)).map
        (fun p : Nat × ℚ =>
          (⟨items.getD p.1 ⟨"", "", "", ""⟩, p.2⟩ : SearchResult))).length
        ≤ min k idx.ntotal := by
          rw [List.length_map, List.length_take]
          exact min_le_left _ _
    _ ≤ k := min_le_left _ _
  · have hsorted : List.Sorted scoreGe
        (((List.range idx.ntotal).map
          (fun i => (i, embed q i))).insertionSort scoreGe) :=
      List.sorted_insertionSort scoreGe _
    have htake := List.Pairwise.sublist
      (List.take_sublist (min k idx.ntotal) _) hsorted
    rw [List.pairwise_map]
    exact htake

/-- Witness for C6: spec scenario D shape, a query with `top_k = 2`
against a 3-vector enabled state. -/
theorem search_topk_sorted_witness :
    ∃ rows, searchHandler (fun _ i => (i : ℚ))
        ⟨true,
         some (.arr [⟨"c1", "did:c1", "C One", "u"⟩,
                     ⟨"c2", "did:c2", "C Two", "v"⟩,
                     ⟨"c3", "did:c3", "C Three", "w"⟩]),
         some ⟨3⟩, true⟩ "coding help" 2 = .results rows ∧
      rows.length ≤ 2 ∧
      rows.Pairwise (fun a b => b.similarity_score ≤ a.similarity_score) :=
  search_topk_sorted (fun _ i => (i : ℚ))
    ⟨true,
     some (.arr [⟨"c1", "did:c1", "C One", "u"⟩,
                 ⟨"c2", "did:c2", "C Two", "v"⟩,
                 ⟨"c3", "did:c3", "C Three", "w"⟩]),
     some ⟨3⟩, true⟩ "coding help" 2
    [⟨"c1", "did:c1", "C One", "u"⟩,
     ⟨"c2", "did:c2", "C Two", "v"⟩,
     ⟨"c3", "did:c3", "C Three", "w"⟩] ⟨3⟩
    rfl (by decide) rfl rfl (by decide)

/-- Appending a rating that references a different agent does not change
the rating set of `aid`. -/
lemma ratingsFor_append_ne (rs : List Rating) (r : Rating) (aid : String)
    (h : r.agent_reference ≠ aid) :
    ratingsFor (rs ++ [r]) aid = ratingsFor rs aid := by
  simp [ratingsFor, List.filter_append, List.filter_singleton, h]

/-- One ingestion attempt preserves the aggregate invariant: on every
rejection the state is unchanged, and on a commit the touched agent's
aggregate is recomputed from the full new rating set while the rating
sets of all other agents are untouched. -/
lemma applyOp_agg (digest : String → String → Int → String → String → String)
    (maxLen : Nat) (st : LedgerState) (op : SubmitOp)
    (h : AggInvariant st) : AggInvariant (applyOp digest maxLen st op) := by
  unfold applyOp
  rcases hsub : submit_rating digest maxLen op.now op.storageOk st op.req
    with e | ⟨st2, r⟩
  · exact h
  · show AggInvariant st2
    unfold submit_rating at hsub
    split_ifs at hsub
    simp only [Except.ok.injEq, Prod.mk.injEq] at hsub
    obtain ⟨hst, hr⟩ := hsub
    subst hst
    intro a' ha'
    simp only [List.mem_map] at ha'
    obtain ⟨a, ha, rfl⟩ := ha'
    by_cases hid : a.agent_id = op.req.agent_id
    · simp only [if_pos hid]
      exact ⟨trivial, trivial⟩
    · simp only [if_neg hid]
      have hne : (⟨op.req.agent_id, op.req.user_id, op.req.score,
          op.req.comment, op.now,
          digest op.req.agent_id op.req.user_id op.req.score
            (op.req.comment.getD "") op.now⟩ : Rating).agent_reference
          ≠ a.agent_id := fun hh => hid hh.symm
      simpa [ratingsFor_append_ne _ _ _ hne] using h a ha

/-- One ingestion attempt preserves the hash invariant: a rejected
submission stores nothing, and a committed one stores a rating whose
`hash` is the digest of its own stored fields by construction. -/
lemma applyOp_hash (digest : String → String → Int → String → String → String)
    (maxLen : Nat) (st : LedgerState) (op : SubmitOp)
    (h : HashInvariant digest st) :
    HashInvariant digest (applyOp digest maxLen st op) := by
  unfold applyOp
  rcases hsub : submit_rating digest maxLen op.now op.storageOk st op.req
    with e | ⟨st2, r⟩
  · exact h
  · show HashInvariant digest st2
    unfold submit_rating at hsub
    split_ifs at hsub
    simp only [Except.ok.injEq, Prod.mk.injEq] at hsub
    obtain ⟨hst, hr⟩ := hsub
    subst hst
    intro rr hrr
    simp only [List.mem_append, List.mem_singleton] at hrr
    rcases hrr with hrr | rfl
    · exact h rr hrr
    · rfl

/-- C1: after every sequence of ingestion attempts — an interleaving of
concurrent submissions being modelled by the serialized sequence of its
committed transactions, per the atomicity contract of spec section 4.4 —
every agent's `avg_score` is the arithmetic mean of the scores of its
stored ratings and `num_ratings` is their count, provided the initial
state satisfies the same invariant. -/
theorem rating_aggregates_invariant
    (digest : String → String → Int → String → String → String)
    (maxLen : Nat) (ops : List SubmitOp) (st0 : LedgerState)
    (h : AggInvariant st0) :
    AggInvariant (applyOps digest maxLen st0 ops) := by
  induction ops generalizing st0 with
  | nil => simpa [applyOps] using h
  | cons op ops ih =>
    rw [applyOps, List.foldl_cons]
    exact ih _ (applyOp_agg _ _ _ _ h)

/-- Witness for C1: spec scenario E shape — one agent with no ratings,
then submissions of scores 4 and 2 (in one of the interleaving orders)
plus a rejected score 9; the aggregate ends at mean 3 over 2 ratings. -/
theorem rating_aggregates_invariant_witness :
    AggInvariant ⟨[⟨"agent001", "did:a1", "Agent One", 0, 0⟩], []⟩ ∧
    AggInvariant (applyOps (fun _ _ _ _ _ => "") 500
      ⟨[⟨"agent001", "did:a1", "Agent One", 0, 0⟩], []⟩
      [⟨⟨"agent001", "u1", 4, none⟩, "2025-04-05T00:00:00Z", true⟩,
       ⟨⟨"agent001", "u2", 2, some "ok"⟩, "2025-04-05T00:00:01Z", true⟩,
       ⟨⟨"agent001", "u3", 9, none⟩, "2025-04-05T00:00:02Z", true⟩]) :=
  ⟨by simp [AggInvariant, ratingsFor, meanScore],
   rating_aggregates_invariant (fun _ _ _ _ _ => "") 500
     [⟨⟨"agent001", "u1", 4, none⟩, "2025-04-05T00:00:00Z", true⟩,
      ⟨⟨"agent001", "u2", 2, some "ok"⟩, "2025-04-05T00:00:01Z", true⟩,
      ⟨⟨"agent001", "u3", 9, none⟩, "2025-04-05T00:00:02Z", true⟩]
     ⟨[⟨"agent001", "did:a1", "Agent One", 0, 0⟩], []⟩
     (by simp [AggInvariant, ratingsFor, meanScore])⟩

/-- C2: after every sequence of ingestion attempts, every stored rating's
`hash` equals the digest of the ordered tuple `(agent_reference,
user_reference, score, comment_or_empty, timestamp)` recomputed from its
own stored fields, for every digest function — in particular for the
SHA-256 contract of the README. -/
theorem rating_hash_recomputable
    (digest : String → String → Int → String → String → String)
    (maxLen : Nat) (ops : List SubmitOp) (st0 : LedgerState)
    (h : HashInvariant digest st0) :
    HashInvariant digest (applyOps digest maxLen st0 ops) := by
  induction ops generalizing st0 with
  | nil => simpa [applyOps] using h
  | cons op ops ih =>
    rw [applyOps, List.foldl_cons]
    exact ih _ (applyOp_hash _ _ _ _ h)

/-- Witness for C2 with a concrete concatenation digest, an initially
empty ledger, and a committed plus a rejected submission. -/
theorem rating_hash_recomputable_witness :
    HashInvariant (fun a u _ c t => a ++ "|" ++ u ++ "|" ++ c ++ "|" ++ t)
      ⟨[⟨"agent001", "did:a1", "Agent One", 0, 0⟩], []⟩ ∧
    HashInvariant (fun a u _ c t => a ++ "|" ++ u ++ "|" ++ c ++ "|" ++ t)
      (applyOps (fun a u _ c t => a ++ "|" ++ u ++ "|" ++ c ++ "|" ++ t) 500
        ⟨[⟨"agent001", "did:a1", "Agent One", 0, 0⟩], []⟩
        [⟨⟨"agent001", "u1", 5, some "Great"⟩, "2025-04-05T01:00:00Z", true⟩,
         ⟨⟨"missing", "u2", 3, none⟩, "2025-04-05T01:00:01Z", true⟩]) :=
  ⟨by simp [HashInvariant],
   rating_hash_recomputable
     (fun a u _ c t => a ++ "|" ++ u ++ "|" ++ c ++ "|" ++ t) 500
     [⟨⟨"agent001", "u1", 5, some "Great"⟩, "2025-04-05T01:00:00Z", true⟩,
      ⟨⟨"missing", "u2", 3, none⟩, "2025-04-05T01:00:01Z", true⟩]
     ⟨[⟨"agent001", "did:a1", "Agent One", 0, 0⟩], []⟩ (by simp [HashInvariant])⟩

/-- C7: every rejected or failed ingestion — invalid score, oversized
comment, unknown agent, or a storage failure of the transaction — returns
an error and leaves the observable ledger state exactly as it was: no
rating is persisted and no aggregate moves. -/
theorem submit_error_leaves_state_unchanged
    (digest : String → String → Int → String → String → String)
    (maxLen : Nat) (now : String) (storageOk : Bool)
    (st : LedgerState) (req : RatingRequest)
    (h : ¬(1 ≤ req.score ∧ req.score ≤ 5) ∨
         commentOversized maxLen req.comment = true ∨
         ¬(∃ a ∈ st.agents, a.agent_id = req.agent_id) ∨
         storageOk = false) :
    (∃ e, submit_rating digest maxLen now storageOk st req = .error e) ∧
    applyOp digest maxLen st ⟨req, now, storageOk⟩ = st := by
  have hsub : ∃ e, submit_rating digest maxLen now storageOk st req
      = .error e := by
    unfold submit_rating
    by_cases h1 : ¬(1 ≤ req.score ∧ req.score ≤ 5)
    · refine ⟨.invalidInput, ?_⟩
      rw [if_pos h1]
    · rw [if_neg h1]
      by_cases h2 : commentOversized maxLen req.comment = true
      · refine ⟨.invalidInput, ?_⟩
        rw [if_pos h2]
      · rw [if_neg h2]
        by_cases h3 : ¬∃ a ∈ st.agents, a.agent_id = req.agent_id
        · refine ⟨.notFound, ?_⟩
          rw [if_pos h3]
        · rw [if_neg h3]
          by_cases h4 : storageOk = false
          · refine ⟨.storageFailure, ?_⟩
            rw [if_pos h4]
          · exfalso
            rcases h with h | h | h | h
            · exact h1 h
            · exact h2 h
            · exact h3 h
            · exact h4 h
  obtain ⟨e, he⟩ := hsub
  refine ⟨⟨e, he⟩, ?_⟩
  simp [applyOp, he]

/-- Witness for C7 at a concrete out-of-range score. -/
theorem submit_error_leaves_state_unchanged_witness :
    (∃ e, submit_rating (fun _ _ _ _ _ => "") 500 "2025-04-05T02:00:00Z"
        true ⟨[⟨"agent001", "did:a1", "Agent One", 0, 0⟩], []⟩
        ⟨"agent001", "u1", 7, none⟩ = .error e) ∧
    applyOp (fun _ _ _ _ _ => "") 500
      ⟨[⟨"agent001", "did:a1", "Agent One", 0, 0⟩], []⟩
      ⟨⟨"agent001", "u1", 7, none⟩, "2025-04-05T02:00:00Z", true⟩
      = ⟨[⟨"agent001", "did:a1", "Agent One", 0, 0⟩], []⟩ :=
  submit_error_leaves_state_unchanged (fun _ _ _ _ _ => "") 500
    "2025-04-05T02:00:00Z" true
    ⟨[⟨"agent001", "did:a1", "Agent One", 0, 0⟩], []⟩
    ⟨"agent001", "u1", 7, none⟩ (Or.inl (by decide))

/-- The event log after a sequence of attempts is the initial log followed
by exactly the attempts whose DID resolves to a known agent. -/
lemma applyRecOps_eq (known : List String) (events : List (String × String))
    (ops : List (String × String)) :
    applyRecOps known events ops =
      events ++ ops.filter (fun op => decide (op.1 ∈ known)) := by
  induction ops generalizing events with
  | nil => simp [applyRecOps]
  | cons op ops ih =>
    unfold applyRecOps at ih ⊢
    simp only [List.foldl_cons]
    have hstep : (log_recommendation known events op.1 op.2).1 =
        if op.1 ∈ known then events ++ [op] else events := by
      by_cases hk : op.1 ∈ known <;> simp [log_recommendation, hk]
    rw [hstep]
    by_cases hk : op.1 ∈ known
    · rw [if_pos hk, ih, List.filter_cons]
      simp [hk, List.append_assoc]
    · rw [if_neg hk, ih, List.filter_cons]
      simp [hk]

/-- C8: starting from an empty event log, after any sequence of
`log_recommendation` attempts the listing contains no duplicates, a DID
is listed exactly when it is known and was attempted at least once, every
stored event references a known DID, and an unknown DID is rejected with
nothing appended. -/
theorem recommendations_distinct_set (known : List String)
    (ops : List (String × String)) :
    (list_recommendations (applyRecOps known [] ops)).Nodup ∧
    (∀ d, d ∈ list_recommendations (applyRecOps known [] ops) ↔
      d ∈ known ∧ ∃ ts, (d, ts) ∈ ops) ∧
    (∀ e ∈ applyRecOps known [] ops, e.1 ∈ known) ∧
    (∀ events d ts, d ∉ known →
      log_recommendation known events d ts = (events, false)) := by
  refine ⟨List.nodup_dedup _, ?_, ?_, ?_⟩
  · intro d
    rw [list_recommendations, List.mem_dedup, applyRecOps_eq]
    simp only [List.nil_append, List.mem_map, List.mem_filter,
      decide_eq_true_eq]
    constructor
    · rintro ⟨⟨x1, x2⟩, ⟨hx, hk⟩, rfl⟩
      exact ⟨hk, x2, hx⟩
    · rintro ⟨hk, ts, hts⟩
      exact ⟨(d, ts), ⟨hts, hk⟩, rfl⟩
  · intro e he
    rw [applyRecOps_eq] at he
    simp only [List.nil_append, List.mem_filter, decide_eq_true_eq] at he
    exact he.2
  · intro events d ts hd
    simp [log_recommendation, hd]

/-- Witness for C8 at a concrete mix of known, unknown and repeated
DIDs. -/
theorem recommendations_distinct_set_witness :
    (list_recommendations (applyRecOps ["did:a", "did:b"] []
      [("did:a", "t1"), ("did:x", "t2"), ("did:a", "t3")])).Nodup ∧
    (∀ d, d ∈ list_recommendations (applyRecOps ["did:a", "did:b"] []
      [("did:a", "t1"), ("did:x", "t2"), ("did:a", "t3")]) ↔
      d ∈ ["did:a", "did:b"] ∧
        ∃ ts, (d, ts) ∈ [("did:a", "t1"), ("did:x", "t2"),
          ("did:a", "t3")]) ∧
    (∀ e ∈ applyRecOps ["did:a", "did:b"] []
      [("did:a", "t1"), ("did:x", "t2"), ("did:a", "t3")],
      e.1 ∈ ["did:a", "did:b"]) ∧
    (∀ events d ts, d ∉ ["did:a", "did:b"] →
      log_recommendation ["did:a", "did:b"] events d ts = (events, false)) :=
  recommendations_distinct_set ["did:a", "did:b"]
    [("did:a", "t1"), ("did:x", "t2"), ("did:a", "t3")]

/-- The JavaScript filter agrees with its first-occurrence specification
whenever the seen-set corresponds exactly to the non-empty hash values of
the already-walked part of the list. -/
lemma uniqueReviewsGo_eq_firstOccAux (l : List Review) :
    ∀ (seen : List String) (p : List Review),
    (∀ s : String, s ∈ seen ↔ s ≠ "" ∧ ∃ x ∈ p, x.hash = some s) →
    uniqueReviewsGo seen l = firstOccAux p l := by
  induction l with
  | nil =>
    intro seen p _
    rfl
  | cons r rs ih =>
    intro seen p hinv
    cases hr : r.hash with
    | none =>
      have hc : ¬(hashTruthy r.hash = true ∧ ∀ x ∈ p, x.hash ≠ r.hash) := by
        simp [hashTruthy, hr]
      rw [firstOccAux, if_neg hc]
      simp only [uniqueReviewsGo, hr]
      apply ih seen (p ++ [r])
      intro s
      rw [hinv s]
      constructor
      · rintro ⟨hs, x, hx, hxs⟩
        exact ⟨hs, x, List.mem_append_left _ hx, hxs⟩
      · rintro ⟨hs, x, hx, hxs⟩
        rcases List.mem_append.mp hx with hx | hx
        · exact ⟨hs, x, hx, hxs⟩
        · rw [List.mem_singleton] at hx
          subst hx
          rw [hr] at hxs
          exact Option.noConfusion hxs
    | some hh =>
      by_cases hcond : hh ≠ "" ∧ hh ∉ seen
      · have hc : hashTruthy r.hash = true ∧ ∀ x ∈ p, x.hash ≠ r.hash := by
          refine ⟨by simp [hashTruthy, hr, hcond.1], ?_⟩
          intro x hx heq
          rw [hr] at heq
          exact hcond.2 ((hinv hh).mpr ⟨hcond.1, x, hx, heq⟩)
        rw [firstOccAux, if_pos hc]
        simp only [uniqueReviewsGo, hr, if_pos hcond]
        congr 1
        apply ih (hh :: seen) (p ++ [r])
        intro s
        constructor
        · intro hs
          rcases List.mem_cons.mp hs with rfl | hs
          · exact ⟨hcond.1, r,
              List.mem_append_right _ (List.mem_singleton_self _), hr⟩
          · obtain ⟨h1, x, hx, hxs⟩ := (hinv s).mp hs
            exact ⟨h1, x, List.mem_append_left _ hx, hxs⟩
        · rintro ⟨h1, x, hx, hxs⟩
          rcases List.mem_append.mp hx with hx | hx
          · exact List.mem_cons_of_mem _ ((hinv s).mpr ⟨h1, x, hx, hxs⟩)
          · rw [List.mem_singleton] at hx
            subst hx
            rw [hr] at hxs
            injection hxs with hxs
            exact hxs ▸ List.mem_cons_self _ _
      · have hc : ¬(hashTruthy r.hash = true ∧ ∀ x ∈ p, x.hash ≠ r.hash) := by
          rintro ⟨h1, h2⟩
          have hne : hh ≠ "" := by simpa [hashTruthy, hr] using h1
          have hmem : hh ∈ seen := by
            by_contra hnm
            exact hcond ⟨hne, hnm⟩
          obtain ⟨_, x, hx, hxs⟩ := (hinv hh).mp hmem
          exact h2 x hx (by rw [hr, hxs])
        rw [firstOccAux, if_neg hc]
        simp only [uniqueReviewsGo, hr, if_neg hcond]
        apply ih seen (p ++ [r])
        intro s
        rw [hinv s]
        constructor
        · rintro ⟨h1, x, hx, hxs⟩
          exact ⟨h1, x, List.mem_append_left _ hx, hxs⟩
        · rintro ⟨h1, x, hx, hxs⟩
          rcases List.mem_append.mp hx with hx | hx
          · exact ⟨h1, x, hx, hxs⟩
          · rw [List.mem_singleton] at hx
            subst hx
            rw [hr] at hxs
            injection hxs with hxs
            subst hxs
            have hmem : hh ∈ seen := by
              by_contra hnm
              exact hcond ⟨h1, hnm⟩
            exact (hinv hh).mp hmem

/-- Every review kept by the filter carries a non-empty hash that was not
in the seen-set the filter started from. -/
lemma uniqueReviewsGo_mem (seen : List String) (l : List Review) :
    ∀ r ∈ uniqueReviewsGo seen l,
      ∃ hh, r.hash = some hh ∧ hh ≠ "" ∧ hh ∉ seen := by
  induction l generalizing seen with
  | nil =>
    intro r hx
    simp [uniqueReviewsGo] at hx
  | cons r rs ih =>
    intro x hx
    cases hr : r.hash with
    | none =>
      simp only [uniqueReviewsGo, hr] at hx
      exact ih seen x hx
    | some hh =>
      simp only [uniqueReviewsGo, hr] at hx
      by_cases hcond : hh ≠ "" ∧ hh ∉ seen
      · rw [if_pos hcond] at hx
        rcases List.mem_cons.mp hx with rfl | hx
        · exact ⟨hh, hr, hcond.1, hcond.2⟩
        · obtain ⟨h', hh', hne, hnm⟩ := ih (hh :: seen) x hx
          exact ⟨h', hh', hne, fun hm => hnm (List.mem_cons_of_mem _ hm)⟩
      · rw [if_neg hcond] at hx
        exact ih seen x hx

/-- The filter never keeps two reviews with the same hash value. -/
lemma uniqueReviewsGo_pairwise (l : List Review) : ∀ seen,
    (uniqueReviewsGo seen l).Pairwise (fun a b => a.hash ≠ b.hash) := by
  induction l with
  | nil =>
    intro seen
    simp [uniqueReviewsGo]
  | cons r rs ih =>
    intro seen
    cases hr : r.hash with
    | none =>
      simp only [uniqueReviewsGo, hr]
      exact ih seen
    | some hh =>
      simp only [uniqueReviewsGo, hr]
      by_cases hcond : hh ≠ "" ∧ hh ∉ seen
      · rw [if_pos hcond]
        refine List.Pairwise.cons ?_ (ih (hh :: seen))
        intro b hb
        obtain ⟨h', hb', hne, hnm⟩ := uniqueReviewsGo_mem (hh :: seen) rs b hb
        rw [hr, hb']
        intro heq
        injection heq with heq
        exact hnm (heq ▸ List.mem_cons_self _ _)
      · rw [if_neg hcond]
        exact ih seen

/-- C10: the review list rendered by the detail page equals the
first-occurrence filter of the fetched list — at most one review per
distinct hash value, keeping the first in list order — and every rendered
review has a truthy (present and non-empty) hash; duplicates and
hash-less rows are dropped. -/
theorem uniqueReviews_spec (l : List Review) :
    uniqueReviews l = firstOccurrences l ∧
    (∀ r ∈ uniqueReviews l, hashTruthy r.hash = true) ∧
    (uniqueReviews l).Pairwise (fun a b => a.hash ≠ b.hash) := by
  refine ⟨?_, ?_, ?_⟩
  · exact uniqueReviewsGo_eq_firstOccAux l [] [] (by simp)
  · intro r hr
    obtain ⟨hh, h1, h2, _⟩ := uniqueReviewsGo_mem [] l r hr
    simp [hashTruthy, h1, h2]
  · exact uniqueReviewsGo_pairwise l []

/-- Witness for C10 at a concrete list containing a duplicate hash, a
missing hash and an empty-string hash. -/
theorem uniqueReviews_spec_witness :
    uniqueReviews
        [⟨5, some "great", "t1", some "h1"⟩,
         ⟨4, none, "t2", some "h1"⟩,
         ⟨3, none, "t3", none⟩,
         ⟨2, none, "t4", some ""⟩]
      = firstOccurrences
        [⟨5, some "great", "t1", some "h1"⟩,
         ⟨4, none, "t2", some "h1"⟩,
         ⟨3, none, "t3", none⟩,
         ⟨2, none, "t4", some ""⟩] ∧
    (∀ r ∈ uniqueReviews
        [⟨5, some "great", "t1", some "h1"⟩,
         ⟨4, none, "t2", some "h1"⟩,
         ⟨3, none, "t3", none⟩,
         ⟨2, none, "t4", some ""⟩], hashTruthy r.hash = true) ∧
    (uniqueReviews
        [⟨5, some "great", "t1", some "h1"⟩,
         ⟨4, none, "t2", some "h1"⟩,
         ⟨3, none, "t3", none⟩,
         ⟨2, none, "t4", some ""⟩]).Pairwise
      (fun a b => a.hash ≠ b.hash) :=
  uniqueReviews_spec
    [⟨5, some "great", "t1", some "h1"⟩,
     ⟨4, none, "t2", some "h1"⟩,
     ⟨3, none, "t3", none⟩,
     ⟨2, none, "t4", some ""⟩]

end MasumiRanker
